import Mathlib

/-!
Verification of the tfridge dependency scanner.

This file gives a shallow embedding of `tfridge.go` and proves the frozen
claims about it.  Pure text processing (the extractor, the provider-source
normalization, the submodule-path stripping) is translated directly from the
Go source.  The network and the JSON decoder are external collaborators and
are modelled as an explicit `registry` function from URLs to responses.  The
external semantic-version library is modelled from the spec's description:
standard semantic-version parsing and precedence (major, then minor, then
patch, then pre-release precedence).
-/

namespace TFridge

/-! ### Three-way comparators and their laws

Comparators return an `Int` whose sign carries the result, mirroring
three-way comparison used for semantic-version precedence. -/

def cmpNat (a b : Nat) : Int :=
  if a < b then -1 else if b < a then 1 else 0

def cmpChar (a b : Char) : Int :=
  cmpNat a.toNat b.toNat

/-- Lexicographic comparison of two lists by a part comparator; a strict
prefix compares below the longer list. -/
def lexList {α : Type} (f : α → α → Int) : List α → List α → Int
  | [], [] => 0
  | [], _ :: _ => -1
  | _ :: _, [] => 1
  | x :: xs, y :: ys => if f x y = 0 then lexList f xs ys else f x y

/-- Chain two comparators: use `g` only when `f` ties. -/
def chainCmp {α : Type} (f g : α → α → Int) (a b : α) : Int :=
  if f a b = 0 then g a b else f a b

theorem cmpNat_refl (a : Nat) : cmpNat a a = 0 := by
  simp [cmpNat]

theorem cmpNat_flip (a b : Nat) : cmpNat b a = -cmpNat a b := by
  simp only [cmpNat]
  split_ifs <;> omega

theorem cmpNat_le_trans {a b c : Nat} (h1 : cmpNat a b ≤ 0) (h2 : cmpNat b c ≤ 0) :
    cmpNat a c ≤ 0 := by
  simp only [cmpNat] at *
  split_ifs at * <;> omega

theorem cmpChar_refl (a : Char) : cmpChar a a = 0 := cmpNat_refl _

theorem cmpChar_flip (a b : Char) : cmpChar b a = -cmpChar a b := cmpNat_flip _ _

theorem cmpChar_le_trans {a b c : Char} (h1 : cmpChar a b ≤ 0) (h2 : cmpChar b c ≤ 0) :
    cmpChar a c ≤ 0 := cmpNat_le_trans h1 h2

theorem cmp_eq_trans {α : Type} {f : α → α → Int}
    (hflip : ∀ a b, f b a = -f a b)
    (htrans : ∀ a b c, f a b ≤ 0 → f b c ≤ 0 → f a c ≤ 0)
    {a b c : α} (h1 : f a b = 0) (h2 : f b c = 0) : f a c = 0 := by
  have e1 : f c b = -f b c := hflip b c
  have e2 : f b a = -f a b := hflip a b
  have e3 : f a c = -f c a := hflip c a
  have t1 : f a c ≤ 0 := htrans a b c (by omega) (by omega)
  have t2 : f c a ≤ 0 := htrans c b a (by omega) (by omega)
  omega

theorem cmp_neg_of_eq_neg {α : Type} {f : α → α → Int}
    (hflip : ∀ a b, f b a = -f a b)
    (htrans : ∀ a b c, f a b ≤ 0 → f b c ≤ 0 → f a c ≤ 0)
    {a b c : α} (h1 : f a b = 0) (h2 : f b c < 0) : f a c < 0 := by
  by_contra hc
  have e3 : f a c = -f c a := hflip c a
  have hca : f c a ≤ 0 := by omega
  have hab : f a b ≤ 0 := by omega
  have hcb : f c b ≤ 0 := htrans c a b hca hab
  have e1 : f c b = -f b c := hflip b c
  omega

theorem cmp_neg_of_neg_eq {α : Type} {f : α → α → Int}
    (hflip : ∀ a b, f b a = -f a b)
    (htrans : ∀ a b c, f a b ≤ 0 → f b c ≤ 0 → f a c ≤ 0)
    {a b c : α} (h1 : f a b < 0) (h2 : f b c = 0) : f a c < 0 := by
  by_contra hc
  have e3 : f a c = -f c a := hflip c a
  have hca : f c a ≤ 0 := by omega
  have hba : f b a ≤ 0 := htrans b c a (by omega) hca
  have e4 : f b a = -f a b := hflip a b
  omega

theorem cmp_neg_trans {α : Type} {f : α → α → Int}
    (hflip : ∀ a b, f b a = -f a b)
    (htrans : ∀ a b c, f a b ≤ 0 → f b c ≤ 0 → f a c ≤ 0)
    {a b c : α} (h1 : f a b < 0) (h2 : f b c < 0) : f a c < 0 := by
  by_contra hc
  have e3 : f a c = -f c a := hflip c a
  have hca : f c a ≤ 0 := by omega
  have hcb : f c b ≤ 0 := htrans c a b hca (by omega)
  have e1 : f c b = -f b c := hflip b c
  omega

theorem lexList_refl {α : Type} {f : α → α → Int} (h0 : ∀ a, f a a = 0) :
    ∀ l, lexList f l l = 0
  | [] => rfl
  | x :: xs => by simp [lexList, h0 x, lexList_refl h0 xs]

theorem lexList_flip {α : Type} {f : α → α → Int} (hflip : ∀ a b, f b a = -f a b) :
    ∀ a b, lexList f b a = -lexList f a b
  | [], [] => by simp [lexList]
  | [], _ :: _ => by simp [lexList]
  | _ :: _, [] => by simp [lexList]
  | x :: xs, y :: ys => by
    have hf := hflip x y
    have ih := lexList_flip hflip xs ys
    simp only [lexList]
    by_cases h : f x y = 0
    · have h2 : f y x = 0 := by omega
      simp [h, h2, ih]
    · have h2 : ¬f y x = 0 := by omega
      simp [h, h2, hf]

theorem lexList_le_trans {α : Type} {f : α → α → Int}
    (hflip : ∀ a b, f b a = -f a b)
    (htrans : ∀ a b c, f a b ≤ 0 → f b c ≤ 0 → f a c ≤ 0) :
    ∀ a b c, lexList f a b ≤ 0 → lexList f b c ≤ 0 → lexList f a c ≤ 0
  | [], _, c, _, _ => by cases c <;> simp [lexList]
  | _ :: _, [], _, h1, _ => by simp [lexList] at h1
  | _ :: _, _ :: _, [], _, h2 => by simp [lexList] at h2
  | x :: xs, y :: ys, z :: zs, h1, h2 => by
    simp only [lexList] at h1 h2 ⊢
    by_cases e1 : f x y = 0 <;> by_cases e2 : f y z = 0
    · have e3 : f x z = 0 := cmp_eq_trans hflip htrans e1 e2
      have ih := lexList_le_trans hflip htrans xs ys zs
        (by simpa [e1] using h1) (by simpa [e2] using h2)
      simp [e3, ih]
    · have hlt : f y z < 0 := by
        rw [if_neg e2] at h2
        omega
      have e3 : f x z < 0 := cmp_neg_of_eq_neg hflip htrans e1 hlt
      rw [if_neg (by omega)]
      omega
    · have hlt : f x y < 0 := by
        rw [if_neg e1] at h1
        omega
      have e3 : f x z < 0 := cmp_neg_of_neg_eq hflip htrans hlt e2
      rw [if_neg (by omega)]
      omega
    · have hlt1 : f x y < 0 := by
        rw [if_neg e1] at h1
        omega
      have hlt2 : f y z < 0 := by
        rw [if_neg e2] at h2
        omega
      have e3 : f x z < 0 := cmp_neg_trans hflip htrans hlt1 hlt2
      rw [if_neg (by omega)]
      omega

theorem chainCmp_refl {α : Type} {f g : α → α → Int}
    (h0f : ∀ a, f a a = 0) (h0g : ∀ a, g a a = 0) (a : α) :
    chainCmp f g a a = 0 := by
  simp [chainCmp, h0f, h0g]

theorem chainCmp_flip {α : Type} {f g : α → α → Int}
    (hf : ∀ a b, f b a = -f a b) (hg : ∀ a b, g b a = -g a b) (a b : α) :
    chainCmp f g b a = -chainCmp f g a b := by
  simp only [chainCmp]
  by_cases h : f a b = 0
  · have h2 : f b a = 0 := by have := hf a b; omega
    simp [h, h2, hg a b]
  · have h2 : ¬f b a = 0 := by have := hf a b; omega
    simp [h, h2, hf a b]

theorem chainCmp_le_trans {α : Type} {f g : α → α → Int}
    (hfflip : ∀ a b, f b a = -f a b)
    (hftrans : ∀ a b c, f a b ≤ 0 → f b c ≤ 0 → f a c ≤ 0)
    (hgtrans : ∀ a b c, g a b ≤ 0 → g b c ≤ 0 → g a c ≤ 0)
    {a b c : α} (h1 : chainCmp f g a b ≤ 0) (h2 : chainCmp f g b c ≤ 0) :
    chainCmp f g a c ≤ 0 := by
  simp only [chainCmp] at h1 h2 ⊢
  by_cases e1 : f a b = 0 <;> by_cases e2 : f b c = 0
  · have e3 : f a c = 0 := cmp_eq_trans hfflip hftrans e1 e2
    rw [if_pos e1] at h1
    rw [if_pos e2] at h2
    simp [e3, hgtrans a b c h1 h2]
  · have hlt : f b c < 0 := by rw [if_neg e2] at h2; omega
    have e3 : f a c < 0 := cmp_neg_of_eq_neg hfflip hftrans e1 hlt
    rw [if_neg (by omega)]
    omega
  · have hlt : f a b < 0 := by rw [if_neg e1] at h1; omega
    have e3 : f a c < 0 := cmp_neg_of_neg_eq hfflip hftrans hlt e2
    rw [if_neg (by omega)]
    omega
  · have hlt1 : f a b < 0 := by rw [if_neg e1] at h1; omega
    have hlt2 : f b c < 0 := by rw [if_neg e2] at h2; omega
    have e3 : f a c < 0 := cmp_neg_trans hfflip hftrans hlt1 hlt2
    rw [if_neg (by omega)]
    omega

/-! ### Semantic versions

Modelled from the spec: the repository delegates version parsing and
comparison to an external semantic-version library that is not part of this
repository; the spec requires "strings parseable as valid semantic versions"
and selection of the maximum "by semantic-version comparison (major, then
minor, then patch, then pre-release precedence per standard
semantic-versioning rules)".  We model that library by standard semantic
versioning 2.0.0. -/

/-- A pre-release identifier: purely numeric identifiers compare by value and
below any alphanumeric identifier; alphanumeric identifiers compare in ASCII
order. -/
inductive PreId where
  | num (n : Nat)
  | alpha (s : String)
deriving DecidableEq

structure SemVer where
  major : Nat
  minor : Nat
  patch : Nat
  pre : List PreId
  build : List String
deriving DecidableEq

def cmpStr (a b : String) : Int :=
  lexList cmpChar a.data b.data

theorem cmpStr_refl (a : String) : cmpStr a a = 0 :=
  lexList_refl cmpChar_refl _

theorem cmpStr_flip (a b : String) : cmpStr b a = -cmpStr a b :=
  lexList_flip cmpChar_flip _ _

theorem cmpStr_le_trans {a b c : String} (h1 : cmpStr a b ≤ 0) (h2 : cmpStr b c ≤ 0) :
    cmpStr a c ≤ 0 :=
  lexList_le_trans cmpChar_flip (fun _ _ _ => cmpChar_le_trans) _ _ _ h1 h2

def cmpPreId : PreId → PreId → Int
  | .num a, .num b => cmpNat a b
  | .num _, .alpha _ => -1
  | .alpha _, .num _ => 1
  | .alpha a, .alpha b => cmpStr a b

theorem cmpPreId_refl (a : PreId) : cmpPreId a a = 0 := by
  cases a with
  | num n => exact cmpNat_refl n
  | alpha s => exact cmpStr_refl s

theorem cmpPreId_flip (a b : PreId) : cmpPreId b a = -cmpPreId a b := by
  cases a <;> cases b
  · exact cmpNat_flip _ _
  · simp [cmpPreId]
  · simp [cmpPreId]
  · exact cmpStr_flip _ _

theorem cmpPreId_le_trans {a b c : PreId} (h1 : cmpPreId a b ≤ 0) (h2 : cmpPreId b c ≤ 0) :
    cmpPreId a c ≤ 0 := by
  match a, b, c with
  | .num _, .num _, .num _ => exact cmpNat_le_trans h1 h2
  | .num _, .num _, .alpha _ => simp [cmpPreId]
  | .num _, .alpha _, .num _ => simp only [cmpPreId] at h2; exact absurd h2 (by decide)
  | .num _, .alpha _, .alpha _ => simp [cmpPreId]
  | .alpha _, .num _, _ => simp only [cmpPreId] at h1; exact absurd h1 (by decide)
  | .alpha _, .alpha _, .num _ => simp only [cmpPreId] at h2; exact absurd h2 (by decide)
  | .alpha _, .alpha _, .alpha _ => exact cmpStr_le_trans h1 h2

/-- Pre-release comparison: a release (empty pre-release list) has higher
precedence than any pre-release; two pre-releases compare lexicographically by
identifier, a strict prefix being lower. -/
def cmpPre : List PreId → List PreId → Int
  | [], [] => 0
  | [], _ :: _ => 1
  | _ :: _, [] => -1
  | x :: xs, y :: ys => lexList cmpPreId (x :: xs) (y :: ys)

theorem cmpPre_refl (a : List PreId) : cmpPre a a = 0 := by
  cases a with
  | nil => rfl
  | cons x xs => exact lexList_refl cmpPreId_refl _

theorem cmpPre_flip (a b : List PreId) : cmpPre b a = -cmpPre a b := by
  cases a <;> cases b
  · decide
  · simp [cmpPre]
  · simp [cmpPre]
  · exact lexList_flip cmpPreId_flip _ _

theorem cmpPre_le_trans {a b c : List PreId} (h1 : cmpPre a b ≤ 0) (h2 : cmpPre b c ≤ 0) :
    cmpPre a c ≤ 0 := by
  match a, b, c with
  | [], [], [] => exact h1
  | [], [], _ :: _ => exact h2
  | [], _ :: _, _ => simp only [cmpPre] at h1; exact absurd h1 (by decide)
  | _ :: _, [], [] => exact h1
  | _ :: _, [], _ :: _ => simp only [cmpPre] at h2; exact absurd h2 (by decide)
  | _ :: _, _ :: _, [] => simp [cmpPre]
  | _ :: _, _ :: _, _ :: _ =>
    exact lexList_le_trans cmpPreId_flip (fun _ _ _ => cmpPreId_le_trans) _ _ _ h1 h2

/-- Compare patch numbers, then pre-release precedence. -/
def cmpPatchPre : SemVer → SemVer → Int :=
  chainCmp (fun a b => cmpNat a.patch b.patch) (fun a b => cmpPre a.pre b.pre)

/-- Compare minor numbers, then patch, then pre-release. -/
def cmpMinorDown : SemVer → SemVer → Int :=
  chainCmp (fun a b => cmpNat a.minor b.minor) cmpPatchPre

/-- Semantic-version precedence: major, then minor, then patch, then
pre-release precedence.  Build metadata is ignored. -/
def compareVersion : SemVer → SemVer → Int :=
  chainCmp (fun a b => cmpNat a.major b.major) cmpMinorDown

theorem cmpPatchPre_refl (v : SemVer) : cmpPatchPre v v = 0 := by
  unfold cmpPatchPre
  exact chainCmp_refl (fun a => cmpNat_refl a.patch) (fun a => cmpPre_refl a.pre) v

theorem cmpPatchPre_flip (a b : SemVer) : cmpPatchPre b a = -cmpPatchPre a b := by
  unfold cmpPatchPre
  exact chainCmp_flip (fun x y => cmpNat_flip x.patch y.patch)
    (fun x y => cmpPre_flip x.pre y.pre) a b

theorem cmpPatchPre_le_trans {a b c : SemVer}
    (h1 : cmpPatchPre a b ≤ 0) (h2 : cmpPatchPre b c ≤ 0) : cmpPatchPre a c ≤ 0 := by
  unfold cmpPatchPre at h1 h2 ⊢
  exact chainCmp_le_trans (fun (x y : SemVer) => cmpNat_flip x.patch y.patch)
    (fun (x y z : SemVer) (hx : cmpNat x.patch y.patch ≤ 0)
      (hy : cmpNat y.patch z.patch ≤ 0) => cmpNat_le_trans hx hy)
    (fun (x y z : SemVer) (hx : cmpPre x.pre y.pre ≤ 0)
      (hy : cmpPre y.pre z.pre ≤ 0) => cmpPre_le_trans hx hy) h1 h2

theorem cmpMinorDown_refl (v : SemVer) : cmpMinorDown v v = 0 := by
  unfold cmpMinorDown
  exact chainCmp_refl (fun a => cmpNat_refl a.minor) cmpPatchPre_refl v

theorem cmpMinorDown_flip (a b : SemVer) : cmpMinorDown b a = -cmpMinorDown a b := by
  unfold cmpMinorDown
  exact chainCmp_flip (fun x y => cmpNat_flip x.minor y.minor) cmpPatchPre_flip a b

theorem cmpMinorDown_le_trans {a b c : SemVer}
    (h1 : cmpMinorDown a b ≤ 0) (h2 : cmpMinorDown b c ≤ 0) : cmpMinorDown a c ≤ 0 := by
  unfold cmpMinorDown at h1 h2 ⊢
  exact chainCmp_le_trans (fun (x y : SemVer) => cmpNat_flip x.minor y.minor)
    (fun (x y z : SemVer) (hx : cmpNat x.minor y.minor ≤ 0)
      (hy : cmpNat y.minor z.minor ≤ 0) => cmpNat_le_trans hx hy)
    (fun (x y z : SemVer) (hx : cmpPatchPre x y ≤ 0)
      (hy : cmpPatchPre y z ≤ 0) => cmpPatchPre_le_trans hx hy) h1 h2

theorem compareVersion_refl (v : SemVer) : compareVersion v v = 0 := by
  unfold compareVersion
  exact chainCmp_refl (fun a => cmpNat_refl a.major) cmpMinorDown_refl v

theorem compareVersion_flip (a b : SemVer) : compareVersion b a = -compareVersion a b := by
  unfold compareVersion
  exact chainCmp_flip (fun x y => cmpNat_flip x.major y.major) cmpMinorDown_flip a b

theorem compareVersion_le_trans {a b c : SemVer}
    (h1 : compareVersion a b ≤ 0) (h2 : compareVersion b c ≤ 0) :
    compareVersion a c ≤ 0 := by
  unfold compareVersion at h1 h2 ⊢
  exact chainCmp_le_trans (fun (x y : SemVer) => cmpNat_flip x.major y.major)
    (fun (x y z : SemVer) (hx : cmpNat x.major y.major ≤ 0)
      (hy : cmpNat y.major z.major ≤ 0) => cmpNat_le_trans hx hy)
    (fun (x y z : SemVer) (hx : cmpMinorDown x y ≤ 0)
      (hy : cmpMinorDown y z ≤ 0) => cmpMinorDown_le_trans hx hy) h1 h2

theorem compareVersion_le_of_le_of_gt {x w v : SemVer}
    (h1 : compareVersion x w ≤ 0) (h2 : 0 < compareVersion v w) :
    compareVersion x v ≤ 0 := by
  have hf := compareVersion_flip v w
  exact compareVersion_le_trans h1 (by omega)

/-! ### Parsing semantic versions (modelled from the spec, standard
semver 2.0.0 grammar: `major.minor.patch` with optional `-pre` and `+build`
dot-separated identifier lists). -/

def spanChars (p : Char → Bool) : List Char → List Char × List Char
  | [] => ([], [])
  | c :: cs =>
    if p c then
      let r := spanChars p cs
      (c :: r.1, r.2)
    else ([], c :: cs)

def isIdentChar (c : Char) : Bool :=
  c.isAlpha || c.isDigit || c == '-'

def digitsToNat (ds : List Char) : Nat :=
  ds.foldl (fun a c => 10 * a + (c.toNat - 48)) 0

/-- Parse a numeric core identifier: `0` or a nonzero digit followed by
digits (no leading zeros). -/
def parseCoreNum (cs : List Char) : Option (Nat × List Char) :=
  match spanChars Char.isDigit cs with
  | ([], _) => none
  | ([d], rest) => some (digitsToNat [d], rest)
  | (d :: ds, rest) =>
    if d = '0' then none else some (digitsToNat (d :: ds), rest)

/-- Parse one pre-release identifier: nonempty run of `[0-9A-Za-z-]`;
all-digit identifiers are numeric and may not have leading zeros. -/
def parsePrePart (cs : List Char) : Option (PreId × List Char) :=
  match spanChars isIdentChar cs with
  | ([], _) => none
  | (t :: ts, rest) =>
    if (t :: ts).all Char.isDigit then
      match ts with
      | [] => some (.num (digitsToNat [t]), rest)
      | _ :: _ =>
        if t = '0' then none else some (.num (digitsToNat (t :: ts)), rest)
    else some (.alpha (String.mk (t :: ts)), rest)

/-- Parse one build-metadata identifier: nonempty run of `[0-9A-Za-z-]`
(leading zeros allowed). -/
def parseBuildPart (cs : List Char) : Option (String × List Char) :=
  match spanChars isIdentChar cs with
  | ([], _) => none
  | (t :: ts, rest) => some (String.mk (t :: ts), rest)

def parsePreTail : Nat → List Char → Option (List PreId × List Char)
  | 0, _ => none
  | fuel + 1, cs =>
    match cs with
    | '.' :: cs' =>
      match parsePrePart cs' with
      | none => none
      | some (x, rest) =>
        match parsePreTail fuel rest with
        | none => none
        | some (xs, rest') => some (x :: xs, rest')
    | _ => some ([], cs)

def parseBuildTail : Nat → List Char → Option (List String × List Char)
  | 0, _ => none
  | fuel + 1, cs =>
    match cs with
    | '.' :: cs' =>
      match parseBuildPart cs' with
      | none => none
      | some (x, rest) =>
        match parseBuildTail fuel rest with
        | none => none
        | some (xs, rest') => some (x :: xs, rest')
    | _ => some ([], cs)

def expectDot : List Char → Option (List Char)
  | '.' :: cs => some cs
  | _ => none

/-- Parse a version string; `none` models the library rejecting an invalid
semantic version. -/
def newVersion (s : String) : Option SemVer := do
  let cs := s.data
  let (maj, cs) ← parseCoreNum cs
  let cs ← expectDot cs
  let (mnr, cs) ← parseCoreNum cs
  let cs ← expectDot cs
  let (pat, cs) ← parseCoreNum cs
  let (pre, cs) ←
    match cs with
    | '-' :: cs' =>
      match parsePrePart cs' with
      | none => none
      | some (x, rest) =>
        match parsePreTail (rest.length + 1) rest with
        | none => none
        | some (xs, rest') => some (x :: xs, rest')
    | _ => some (([] : List PreId), cs)
  let (build, cs) ←
    match cs with
    | '+' :: cs' =>
      match parseBuildPart cs' with
      | none => none
      | some (x, rest) =>
        match parseBuildTail (rest.length + 1) rest with
        | none => none
        | some (xs, rest') => some (x :: xs, rest')
    | _ => some (([] : List String), cs)
  if cs = [] then some ⟨maj, mnr, pat, pre, build⟩ else none

/-! ### Rendering (the library's string form of a version, `%d.%d.%d` with
optional pre-release and build suffixes). -/

def natDecCharsAux : Nat → Nat → List Char
  | 0, _ => []
  | fuel + 1, n =>
    if n < 10 then [Nat.digitChar n]
    else natDecCharsAux fuel (n / 10) ++ [Nat.digitChar (n % 10)]

def natDec (n : Nat) : String :=
  String.mk (natDecCharsAux (n + 1) n)

def renderPreId : PreId → String
  | .num n => natDec n
  | .alpha s => s

def joinDots : List String → String
  | [] => ""
  | [x] => x
  | x :: y :: xs => x ++ "." ++ joinDots (y :: xs)

def renderVersion (v : SemVer) : String :=
  natDec v.major ++ "." ++ natDec v.minor ++ "." ++ natDec v.patch
    ++ (if v.pre.isEmpty then "" else "-" ++ joinDots (v.pre.map renderPreId))
    ++ (if v.build.isEmpty then "" else "+" ++ joinDots v.build)

theorem natDecCharsAux_ne_nil (fuel n : Nat) : natDecCharsAux (fuel + 1) n ≠ [] := by
  simp only [natDecCharsAux]
  split <;> simp

theorem str_data_append (a b : String) : (a ++ b).data = a.data ++ b.data := by
  cases a
  cases b
  rfl

theorem renderVersion_ne_empty (v : SemVer) : renderVersion v ≠ "" := by
  intro h
  have hd : (renderVersion v).data = ([] : List Char) := by rw [h]
  rw [renderVersion] at hd
  simp only [str_data_append, List.append_eq_nil] at hd
  exact natDecCharsAux_ne_nil v.major v.major hd.1.1.1.1.1.1

/-! ### Version selection (tfridge.go lines 183-194 and 231-242)

The Go code sorts the filtered slice descending with
`sort.Slice(validVersions, func(i, j int) bool { return
validVersions[i].GreaterThan(validVersions[j]) })` and takes entry 0; we
model the sort by insertion sort on the same comparator. -/

def insertDesc (v : SemVer) : List SemVer → List SemVer
  | [] => [v]
  | w :: ws => if 0 < compareVersion v w then v :: w :: ws else w :: insertDesc v ws

def sortDesc : List SemVer → List SemVer
  | [] => []
  | v :: vs => insertDesc v (sortDesc vs)

theorem insertDesc_ne_nil (v : SemVer) : ∀ l, insertDesc v l ≠ []
  | [] => by simp [insertDesc]
  | w :: ws => by
    simp only [insertDesc]
    split <;> simp

theorem sortDesc_eq_nil : ∀ {l : List SemVer}, sortDesc l = [] → l = []
  | [], _ => rfl
  | a :: l, h => absurd h (insertDesc_ne_nil a (sortDesc l))

/-- Entry 0 of the descending sort is a maximum of the list for
semantic-version precedence. -/
theorem sortDesc_head_max (l : List SemVer) :
    ∀ v t, sortDesc l = v :: t → v ∈ l ∧ ∀ x ∈ l, compareVersion x v ≤ 0 := by
  induction l with
  | nil => intro v t h; simp [sortDesc] at h
  | cons a l ih =>
    intro v t h
    simp only [sortDesc] at h
    cases hs : sortDesc l with
    | nil =>
      have hl : l = [] := sortDesc_eq_nil hs
      rw [hs] at h
      simp only [insertDesc] at h
      injection h with h1 _
      subst h1
      subst hl
      refine ⟨by simp, ?_⟩
      intro x hx
      simp at hx
      subst hx
      simp [compareVersion_refl]
    | cons w ws =>
      rw [hs] at h
      obtain ⟨hw, hmax⟩ := ih w ws hs
      simp only [insertDesc] at h
      by_cases hc : 0 < compareVersion a w
      · rw [if_pos hc] at h
        injection h with h1 _
        subst h1
        refine ⟨by simp, ?_⟩
        intro x hx
        rcases List.mem_cons.mp hx with hx | hx
        · subst hx
          simp [compareVersion_refl]
        · have h1 := hmax x hx
          have h2 : compareVersion w a ≤ 0 := by
            have := compareVersion_flip a w
            omega
          exact compareVersion_le_trans h1 h2
      · rw [if_neg hc] at h
        injection h with h1 _
        subst h1
        refine ⟨List.mem_cons_of_mem a hw, ?_⟩
        intro x hx
        rcases List.mem_cons.mp hx with hx | hx
        · subst hx
          omega
        · exact hmax x hx

def validVersions (versions : List String) : List SemVer :=
  versions.filterMap newVersion

/-- The selection step shared by `getLatestVersion` (lines 179-194) and
`getLatestProviderVersion` (lines 227-242): an empty decoded list returns the
"Not found" marker; otherwise strings that fail to parse are dropped, the
remainder is sorted descending and entry 0 is rendered.  `none` models the Go
runtime panic of `validVersions[0]` when the filtered slice is empty. -/
def getLatestFromVersions (versions : List String) : Option String :=
  if versions.length = 0 then some "Not found"
  else
    match sortDesc (validVersions versions) with
    | [] => none
    | v :: _ => some (renderVersion v)

/-! ### The registry client (tfridge.go lines 158-243)

`http.Get` and the JSON decoder are external collaborators; the registry is
modelled as a function from request URLs to outcomes. -/

/-- One registry interaction: either the transport fails (`http.Get` returns
an error) or a response arrives with a status code and, for the body, the
decoded `versions` list — `none` models a JSON decoding failure. -/
inductive RegistryResponse where
  | failure (msg : String)
  | response (status : Nat) (decoded : Option (List String))
deriving DecidableEq

/-- Result of one lookup: `ok v` is a `(v, nil)` return, `err msg` is a
`("", error)` return, and `crash` models a Go runtime panic. -/
inductive LookupResult where
  | ok (version : String)
  | err (msg : String)
  | crash
deriving DecidableEq

def hasDblSlash : List Char → Bool
  | [] => false
  | [_] => false
  | a :: b :: rest => (a == '/' && b == '/') || hasDblSlash (b :: rest)

/-- The part of a string before its first occurrence of `//`, i.e.
`strings.Split(s, "//")[0]` (tfridge.go lines 159-160). -/
def beforeDoubleSlash : List Char → List Char
  | [] => []
  | [c] => [c]
  | a :: b :: rest =>
    if a == '/' && b == '/' then [] else a :: beforeDoubleSlash (b :: rest)

def stripSubmodulePath (s : String) : String :=
  String.mk (beforeDoubleSlash s.data)

def moduleURL (m : String) : String :=
  "https://registry.terraform.io/v1/modules/" ++ m

def providerURL (p : String) : String :=
  "https://registry.terraform.io/v1/providers/" ++ p

/-- `strings.Split` on a single-character separator. -/
def splitOnChar (sep : Char) : List Char → List (List Char)
  | [] => [[]]
  | c :: cs =>
    if c == sep then [] :: splitOnChar sep cs
    else
      match splitOnChar sep cs with
      | [] => [[c]]
      | p :: ps => (c :: p) :: ps

def countChar (sep : Char) : List Char → Nat
  | [] => 0
  | c :: cs => (if c == sep then 1 else 0) + countChar sep cs

theorem splitOnChar_ne_nil (sep : Char) : ∀ cs, splitOnChar sep cs ≠ []
  | [] => by simp [splitOnChar]
  | c :: cs => by
    simp only [splitOnChar]
    split
    · simp
    · split <;> simp

theorem splitOnChar_length (sep : Char) :
    ∀ cs, (splitOnChar sep cs).length = countChar sep cs + 1
  | [] => rfl
  | c :: cs => by
    have ih := splitOnChar_length sep cs
    simp only [splitOnChar, countChar]
    by_cases h : (c == sep) = true
    · rw [if_pos h, if_pos h]
      simp only [List.length_cons]
      omega
    · rw [if_neg h, if_neg h]
      cases hs : splitOnChar sep cs with
      | nil => exact absurd hs (splitOnChar_ne_nil sep cs)
      | cons p ps =>
        rw [hs] at ih
        simp only [List.length_cons] at ih ⊢
        omega

/-- Provider-source normalization (tfridge.go lines 198-207): split on `/`;
two parts are used unchanged, one part gets the default namespace
`hashicorp/` prepended, any other shape is a format error (`none`). -/
def normalizeProviderSource (s : String) : Option String :=
  let parts := splitOnChar '/' s.data
  if parts.length = 2 then some s
  else if parts.length = 1 then some ("hashicorp/" ++ s)
  else none

/-- `getLatestVersion` (tfridge.go lines 158-195), with the network modelled
by `registry`. -/
def getLatestVersion (registry : String → RegistryResponse) (moduleSource : String) :
    LookupResult :=
  let moduleId := stripSubmodulePath moduleSource
  match registry (moduleURL moduleId) with
  | .failure msg => .err msg
  | .response status decoded =>
    if status ≠ 200 then
      .err ("failed to fetch latest version, status code: " ++ natDec status)
    else
      match decoded with
      | none => .err "failed to decode module versions response"
      | some versions =>
        match getLatestFromVersions versions with
        | none => .crash
        | some v => .ok v

/-- `getLatestProviderVersion` (tfridge.go lines 197-243), with the network
modelled by `registry`. -/
def getLatestProviderVersion (registry : String → RegistryResponse)
    (providerSource : String) : LookupResult :=
  match normalizeProviderSource providerSource with
  | none => .err ("provider format is incorrect: " ++ providerSource)
  | some normalized =>
    match registry (providerURL normalized) with
    | .failure msg => .err msg
    | .response status decoded =>
      if status ≠ 200 then
        .err ("failed to fetch latest version for provider, status code: " ++ natDec status)
      else
        match decoded with
        | none => .err "failed to decode provider versions response"
        | some versions =>
          match getLatestFromVersions versions with
          | none => .crash
          | some v => .ok v

/-! ### The text extractor (tfridge.go lines 96-156)

`extractModules` scans a file line by line with four regular expressions:
`module\s+"[^"]+"\s*\x7b`, `source\s*=\s*["']([^"']+)["']`,
`version\s*=\s*["']([^"']+)["']` and `provider\s*["']([^"']+)["']`.
Each pattern is deterministic (every greedy repetition is followed by a
disjoint character class), so they are embedded as direct scanning
functions: a matcher at a fixed start position plus a leftmost search. -/

def isGoSpace (c : Char) : Bool :=
  c == ' ' || c == '\t' || c == '\n' || c == '\x0c' || c == '\r'

def quoteChar (c : Char) : Bool :=
  c == '"' || c == '\''

/-- Expect a literal character sequence at the head of the input. -/
def dropLit : List Char → List Char → Option (List Char)
  | [], cs => some cs
  | _ :: _, [] => none
  | p :: ps, c :: cs => if c == p then dropLit ps cs else none

/-- Try `<key>\s*=\s*["']([^"']+)["']` at the start of `cs`, returning the
capture group. -/
def matchAssignAt (key : List Char) (cs : List Char) : Option String :=
  match dropLit key cs with
  | none => none
  | some cs =>
    match cs.dropWhile isGoSpace with
    | '=' :: cs =>
      match cs.dropWhile isGoSpace with
      | q :: cs =>
        if quoteChar q then
          match spanChars (fun c => !quoteChar c) cs with
          | (c0 :: cap, _ :: _) => some (String.mk (c0 :: cap))
          | (_, _) => none
        else none
      | [] => none
    | _ => none

/-- Leftmost match of `matchAssignAt` over all start positions, mirroring
`FindStringSubmatch`. -/
def findCaptureFrom (key : List Char) : List Char → Option String
  | [] => none
  | c :: cs =>
    match matchAssignAt key (c :: cs) with
    | some r => some r
    | none => findCaptureFrom key cs

def findSource (line : String) : Option String :=
  findCaptureFrom "source".data line.data

def findVersion (line : String) : Option String :=
  findCaptureFrom "version".data line.data

/-- Try `provider\s*["']([^"']+)["']` at the start of `cs`. -/
def matchProviderAt (cs : List Char) : Option String :=
  match dropLit "provider".data cs with
  | none => none
  | some cs =>
    match cs.dropWhile isGoSpace with
    | q :: cs =>
      if quoteChar q then
        match spanChars (fun c => !quoteChar c) cs with
        | (c0 :: cap, _ :: _) => some (String.mk (c0 :: cap))
        | (_, _) => none
      else none
    | [] => none

def findProviderFrom : List Char → Option String
  | [] => none
  | c :: cs =>
    match matchProviderAt (c :: cs) with
    | some r => some r
    | none => findProviderFrom cs

def findProvider (line : String) : Option String :=
  findProviderFrom line.data

/-- Try `module\s+"[^"]+"\s*\x7b` at the start of `cs`. -/
def matchModuleAt (cs : List Char) : Bool :=
  match dropLit "module".data cs with
  | none => false
  | some cs =>
    match cs with
    | c :: cs =>
      if isGoSpace c then
        match cs.dropWhile isGoSpace with
        | '"' :: cs =>
          match spanChars (fun c => !(c == '"')) cs with
          | (_ :: _, '"' :: cs2) =>
            match cs2.dropWhile isGoSpace with
            | c3 :: _ => c3 == '\x7b'
            | [] => false
          | (_, _) => false
        | _ => false
      else false
    | [] => false

def moduleMatchFrom : List Char → Bool
  | [] => false
  | c :: cs => matchModuleAt (c :: cs) || moduleMatchFrom cs

/-- `moduleRegex.MatchString` on one line. -/
def moduleLineMatch (line : String) : Bool :=
  moduleMatchFrom line.data

/-- Scanner state of `extractModules`: at the top level, or inside a module
block holding the source and version captured so far. -/
inductive ScanState where
  | top
  | inBlock (src ver : String)
deriving DecidableEq

/-- The line loop of `extractModules` (tfridge.go lines 112-149), producing
module and provider declarations in emission order.  A top-level line
matching `moduleRegex` opens a block whose following lines may overwrite the
captured source and version; a line equal to `\x7d` closes the block,
emitting `(source, version)` when a source was captured, and an open block is
also emitted at end of input.  Any other top-level line matching
`providerRegex` emits a provider declaration with any same-line version. -/
def extractGo : ScanState → List String → List (String × String) × List (String × String)
  | .top, [] => ([], [])
  | .inBlock src ver, [] => (if src ≠ "" then [(src, ver)] else [], [])
  | .top, l :: rest =>
    if moduleLineMatch l then extractGo (.inBlock "" "") rest
    else
      match findProvider l with
      | some p =>
        let tl := extractGo .top rest
        (tl.1, if p ≠ "" then (p, (findVersion l).getD "") :: tl.2 else tl.2)
      | none => extractGo .top rest
  | .inBlock src ver, l :: rest =>
    let srcNew := (findSource l).getD src
    let verNew := (findVersion l).getD ver
    if l = "\x7d" then
      let tl := extractGo .top rest
      (if srcNew ≠ "" then (srcNew, verNew) :: tl.1 else tl.1, tl.2)
    else extractGo (.inBlock srcNew verNew) rest

/-- `extractModules` on the lines of one file: the module and provider
declarations it emits, in order. -/
def extractDecls (lines : List String) : List (String × String) × List (String × String) :=
  extractGo .top lines

/-! ### Map accumulation and the report loops (tfridge.go lines 31-94) -/

/-- A Go `map[string]string` assignment `m[k] = v`. -/
def updateMap (m : String → Option String) (kv : String × String) :
    String → Option String :=
  fun x => if x = kv.1 then some kv.2 else m x

def mapOfDecls (ds : List (String × String)) (m : String → Option String) :
    String → Option String :=
  ds.foldl updateMap m

def emptyMap : String → Option String := fun _ => none

/-- The filesystem walk threads `moduleMap` and `providerMap` through
`extractModules` file by file; each file's declarations update the maps in
emission order. -/
def walkFiles (files : List (List String)) :
    (String → Option String) × (String → Option String) :=
  files.foldl
    (fun maps f =>
      (mapOfDecls (extractDecls f).1 maps.1, mapOfDecls (extractDecls f).2 maps.2))
    (emptyMap, emptyMap)

def runModuleDecls (files : List (List String)) : List (String × String) :=
  (files.map (fun f => (extractDecls f).1)).flatten

def runProviderDecls (files : List (List String)) : List (String × String) :=
  (files.map (fun f => (extractDecls f).2)).flatten

/-- The pinned version of the last declaration for source `s`, if any. -/
def lastVersionOf (s : String) : List (String × String) → Option String
  | [] => none
  | (k, v) :: tl =>
    match lastVersionOf s tl with
    | some r => some r
    | none => if k = s then some v else none

/-- What the report loop prints for one entry. -/
inductive EntryReport where
  | fetchError (source msg : String)
  | comparison (source current latest : String)
  | notFoundNotice (source current : String)
deriving DecidableEq

/-- One iteration of the module report loop (tfridge.go lines 62-76):
a lookup error is printed inline and the entry is skipped; otherwise the
entry prints its comparison, with a "Not found" notice if the latest version
string is empty.  `none` models the whole run dying on a lookup panic. -/
def reportModuleEntry (reg : String → RegistryResponse) (source current : String) :
    Option EntryReport :=
  match getLatestVersion reg source with
  | .crash => none
  | .err msg => some (.fetchError source msg)
  | .ok v =>
    some (if v = "" then .notFoundNotice source current else .comparison source current v)

/-- One iteration of the provider report loop (tfridge.go lines 79-93). -/
def reportProviderEntry (reg : String → RegistryResponse) (source current : String) :
    Option EntryReport :=
  match getLatestProviderVersion reg source with
  | .crash => none
  | .err msg => some (.fetchError source msg)
  | .ok v =>
    some (if v = "" then .notFoundNotice source current else .comparison source current v)

def reportModules (reg : String → RegistryResponse) :
    List (String × String) → Option (List EntryReport)
  | [] => some []
  | (s, c) :: rest =>
    match reportModuleEntry reg s c with
    | none => none
    | some r => (reportModules reg rest).map (fun l => r :: l)

def reportProviders (reg : String → RegistryResponse) :
    List (String × String) → Option (List EntryReport)
  | [] => some []
  | (s, c) :: rest =>
    match reportProviderEntry reg s c with
    | none => none
    | some r => (reportProviders reg rest).map (fun l => r :: l)

/-! ### Supporting lemmas -/

/-- The last value captured by `f` over a run of lines, starting from
`init` — the way the block loop of `extractModules` threads `source` and
`version`. -/
def lastCapture (f : String → Option String) (ls : List String) (init : String) : String :=
  ls.foldl (fun acc l => (f l).getD acc) init

theorem mk_cons_ne_empty (c : Char) (cs : List Char) : String.mk (c :: cs) ≠ "" := by
  intro h
  have hd : (String.mk (c :: cs)).data = ("" : String).data := congrArg String.data h
  simp at hd

theorem matchAssignAt_ne_empty {key cs : List Char} {r : String}
    (h : matchAssignAt key cs = some r) : r ≠ "" := by
  unfold matchAssignAt at h
  repeat' split at h
  all_goals first
    | (injection h; done)
    | (injection h with h1; subst h1; exact mk_cons_ne_empty _ _)

theorem findCaptureFrom_ne_empty {key : List Char} {r : String} :
    ∀ {cs : List Char}, findCaptureFrom key cs = some r → r ≠ ""
  | [], h => by simp [findCaptureFrom] at h
  | c :: cs, h => by
    simp only [findCaptureFrom] at h
    cases hm : matchAssignAt key (c :: cs) with
    | some x =>
      rw [hm] at h
      injection h with h1
      exact h1 ▸ matchAssignAt_ne_empty hm
    | none =>
      rw [hm] at h
      exact findCaptureFrom_ne_empty h

theorem findSource_ne_empty {l r : String} (h : findSource l = some r) : r ≠ "" :=
  findCaptureFrom_ne_empty h

/-- Inside a module block, the loop threads the last captured source and
version through the lines up to the closing `\x7d` line, then emits. -/
theorem extractGo_block :
    ∀ (body : List String) (rest : List String) (s v : String),
      (∀ l ∈ body, l ≠ "\x7d") →
      extractGo (.inBlock s v) (body ++ "\x7d" :: rest) =
        ((if lastCapture findSource body s ≠ "" then
            (lastCapture findSource body s, lastCapture findVersion body v)
              :: (extractGo .top rest).1
          else (extractGo .top rest).1),
         (extractGo .top rest).2)
  | [], rest, s, v, _ => by
    have hs : findSource "\x7d" = none := rfl
    have hv : findVersion "\x7d" = none := rfl
    simp [extractGo, lastCapture, hs, hv]
  | l :: body, rest, s, v, h => by
    have hl : l ≠ "\x7d" := h l (by simp)
    have ih := extractGo_block body rest ((findSource l).getD s) ((findVersion l).getD v)
      (fun x hx => h x (by simp [hx]))
    simp only [List.cons_append, extractGo]
    rw [if_neg hl]
    exact ih

/-- Go map lookup after a fold of assignments: the last assignment for the
key wins, falling back to the starting map. -/
theorem mapOfDecls_lookup (s : String) :
    ∀ (ds : List (String × String)) (m : String → Option String),
      mapOfDecls ds m s =
        match lastVersionOf s ds with
        | some r => some r
        | none => m s
  | [], m => by simp [mapOfDecls, lastVersionOf]
  | (k, v) :: tl, m => by
    have ih := mapOfDecls_lookup s tl (updateMap m (k, v))
    simp only [mapOfDecls, List.foldl_cons] at ih ⊢
    rw [ih]
    simp only [lastVersionOf]
    cases lastVersionOf s tl with
    | some r => simp
    | none =>
      by_cases hk : k = s
      · subst hk
        simp [updateMap]
      · rw [if_neg hk]
        simp only [updateMap]
        rw [if_neg (fun hx => hk hx.symm)]

theorem lastVersionOf_append (s : String) :
    ∀ (a b : List (String × String)),
      lastVersionOf s (a ++ b) =
        match lastVersionOf s b with
        | some r => some r
        | none => lastVersionOf s a
  | [], b => by
    simp only [List.nil_append]
    cases lastVersionOf s b <;> simp [lastVersionOf]
  | (k, v) :: a, b => by
    have ih := lastVersionOf_append s a b
    simp only [List.cons_append, List.append_eq, lastVersionOf]
    rw [ih]
    cases lastVersionOf s b with
    | some r => simp
    | none => cases lastVersionOf s a <;> simp

theorem walkFiles_lookup (s : String) :
    ∀ (files : List (List String)) (m1 m2 : String → Option String),
      ((files.foldl
          (fun maps f =>
            (mapOfDecls (extractDecls f).1 maps.1, mapOfDecls (extractDecls f).2 maps.2))
          (m1, m2)).1 s =
        match lastVersionOf s (runModuleDecls files) with
        | some r => some r
        | none => m1 s) ∧
      ((files.foldl
          (fun maps f =>
            (mapOfDecls (extractDecls f).1 maps.1, mapOfDecls (extractDecls f).2 maps.2))
          (m1, m2)).2 s =
        match lastVersionOf s (runProviderDecls files) with
        | some r => some r
        | none => m2 s)
  | [], m1, m2 => by simp [runModuleDecls, runProviderDecls, lastVersionOf]
  | f :: files, m1, m2 => by
    have ih := walkFiles_lookup s files
      (mapOfDecls (extractDecls f).1 m1) (mapOfDecls (extractDecls f).2 m2)
    have hm := mapOfDecls_lookup s (extractDecls f).1 m1
    have hp := mapOfDecls_lookup s (extractDecls f).2 m2
    have ha1 := lastVersionOf_append s (extractDecls f).1 (runModuleDecls files)
    have ha2 := lastVersionOf_append s (extractDecls f).2 (runProviderDecls files)
    simp only [List.foldl_cons]
    constructor
    · rw [ih.1, hm]
      have : runModuleDecls (f :: files) = (extractDecls f).1 ++ runModuleDecls files := by
        simp [runModuleDecls]
      rw [this, ha1]
      cases lastVersionOf s (runModuleDecls files) <;>
        cases lastVersionOf s (extractDecls f).1 <;> simp
    · rw [ih.2, hp]
      have : runProviderDecls (f :: files) = (extractDecls f).2 ++ runProviderDecls files := by
        simp [runProviderDecls]
      rw [this, ha2]
      cases lastVersionOf s (runProviderDecls files) <;>
        cases lastVersionOf s (extractDecls f).2 <;> simp

/-- A lookup error on one module entry only replaces that entry's report;
every other entry of the batch is still processed. -/
theorem reportModules_err (reg : String → RegistryResponse)
    (src curr msg : String) (h : getLatestVersion reg src = .err msg) :
    ∀ (pre post : List (String × String)),
      reportModules reg (pre ++ (src, curr) :: post) =
        (reportModules reg pre).bind
          (fun x => (reportModules reg post).map
            (fun y => x ++ EntryReport.fetchError src msg :: y))
  | [], post => by
    simp only [List.nil_append, reportModules, reportModuleEntry, h]
    cases reportModules reg post <;> simp
  | (a, b) :: pre, post => by
    have ih := reportModules_err reg src curr msg h pre post
    simp only [List.cons_append, List.append_eq, reportModules]
    cases reportModuleEntry reg a b with
    | none => simp
    | some r =>
      rw [ih]
      cases reportModules reg pre <;> cases reportModules reg post <;> simp

/-- A lookup error on one provider entry only replaces that entry's report. -/
theorem reportProviders_err (reg : String → RegistryResponse)
    (src curr msg : String) (h : getLatestProviderVersion reg src = .err msg) :
    ∀ (pre post : List (String × String)),
      reportProviders reg (pre ++ (src, curr) :: post) =
        (reportProviders reg pre).bind
          (fun x => (reportProviders reg post).map
            (fun y => x ++ EntryReport.fetchError src msg :: y))
  | [], post => by
    simp only [List.nil_append, reportProviders, reportProviderEntry, h]
    cases reportProviders reg post <;> simp
  | (a, b) :: pre, post => by
    have ih := reportProviders_err reg src curr msg h pre post
    simp only [List.cons_append, List.append_eq, reportProviders]
    cases reportProviderEntry reg a b with
    | none => simp
    | some r =>
      rw [ih]
      cases reportProviders reg pre <;> cases reportProviders reg post <;> simp

theorem beforeDblSlash_no_dbl : ∀ {cs : List Char}, hasDblSlash cs = false →
    beforeDoubleSlash cs = cs
  | [], _ => rfl
  | [_], _ => rfl
  | a :: b :: rest, h => by
    simp only [hasDblSlash, Bool.or_eq_false_iff] at h
    simp only [beforeDoubleSlash]
    rw [if_neg (by simp [h.1])]
    rw [beforeDblSlash_no_dbl h.2]

theorem beforeDblSlash_append :
    ∀ (t cs : List Char), hasDblSlash cs = false → cs.getLast? ≠ some '/' →
      beforeDoubleSlash (cs ++ '/' :: '/' :: t) = cs
  | _, [], _, _ => by simp [beforeDoubleSlash]
  | t, [c], _, h2 => by
    have hc : ¬((c == '/' && '/' == '/') = true) := by
      simp only [List.getLast?_singleton] at h2
      simp only [Bool.and_eq_true, beq_iff_eq]
      intro hx
      exact h2 (by rw [hx.1])
    simp only [List.cons_append, List.nil_append, beforeDoubleSlash]
    rw [if_neg hc]
    simp [beforeDoubleSlash]
  | t, a :: b :: rest, h1, h2 => by
    simp only [hasDblSlash, Bool.or_eq_false_iff] at h1
    have h2' : (b :: rest).getLast? ≠ some '/' := by
      rwa [List.getLast?_cons_cons] at h2
    simp only [List.cons_append, beforeDoubleSlash]
    rw [if_neg (by simp [h1.1])]
    have ih := beforeDblSlash_append t (b :: rest) h1.2 h2'
    simp only [List.cons_append] at ih
    exact congrArg (List.cons a) ih

/-- Shape of a successful selection: either the "Not found" marker for an
empty list, or the rendering of a valid parsed version from the list. -/
theorem getLatestFromVersions_shape {vs : List String} {v : String}
    (h : getLatestFromVersions vs = some v) :
    v = "Not found" ∨
      ∃ s₀ sv, s₀ ∈ vs ∧ newVersion s₀ = some sv ∧ v = renderVersion sv := by
  unfold getLatestFromVersions at h
  split at h
  · left
    injection h with h1
    exact h1.symm
  · cases hs : sortDesc (validVersions vs) with
    | nil => rw [hs] at h; simp at h
    | cons sv t =>
      rw [hs] at h
      injection h with h1
      right
      obtain ⟨hmem, _⟩ := sortDesc_head_max _ sv t hs
      unfold validVersions at hmem
      obtain ⟨s₀, hs₀, hparse⟩ := List.mem_filterMap.mp hmem
      exact ⟨s₀, sv, hs₀, hparse, h1.symm⟩

theorem getLatestVersion_ok_props {reg : String → RegistryResponse} {s v : String}
    (h : getLatestVersion reg s = .ok v) :
    v ≠ "" ∧ (v = "Not found" ∨ ∃ s₀ sv, newVersion s₀ = some sv ∧ v = renderVersion sv) := by
  simp only [getLatestVersion] at h
  cases hr : reg (moduleURL (stripSubmodulePath s)) with
  | failure msg => rw [hr] at h; simp at h
  | response status decoded =>
    rw [hr] at h
    simp only [] at h
    split at h
    · simp at h
    · cases decoded with
      | none => simp at h
      | some versions =>
        simp only [] at h
        cases hg : getLatestFromVersions versions with
        | none => rw [hg] at h; simp at h
        | some w =>
          rw [hg] at h
          injection h with h1
          subst h1
          rcases getLatestFromVersions_shape hg with hw | ⟨s₀, sv, _, hparse, hrender⟩
          · subst hw
            exact ⟨by decide, Or.inl rfl⟩
          · subst hrender
            exact ⟨renderVersion_ne_empty sv, Or.inr ⟨s₀, sv, hparse, rfl⟩⟩

theorem getLatestProviderVersion_ok_props {reg : String → RegistryResponse} {p v : String}
    (h : getLatestProviderVersion reg p = .ok v) :
    v ≠ "" ∧ (v = "Not found" ∨ ∃ s₀ sv, newVersion s₀ = some sv ∧ v = renderVersion sv) := by
  simp only [getLatestProviderVersion] at h
  cases hn : normalizeProviderSource p with
  | none => rw [hn] at h; simp at h
  | some norm =>
    rw [hn] at h
    simp only [] at h
    cases hr : reg (providerURL norm) with
    | failure msg => rw [hr] at h; simp at h
    | response status decoded =>
      rw [hr] at h
      simp only [] at h
      split at h
      · simp at h
      · cases decoded with
        | none => simp at h
        | some versions =>
          simp only [] at h
          cases hg : getLatestFromVersions versions with
          | none => rw [hg] at h; simp at h
          | some w =>
            rw [hg] at h
            injection h with h1
            subst h1
            rcases getLatestFromVersions_shape hg with hw | ⟨s₀, sv, _, hparse, hrender⟩
            · subst hw
              exact ⟨by decide, Or.inl rfl⟩
            · subst hrender
              exact ⟨renderVersion_ne_empty sv, Or.inr ⟨s₀, sv, hparse, rfl⟩⟩

/-! ### Concrete registries used by the witnesses -/

def regEmptyVersions : String → RegistryResponse :=
  fun _ => .response 200 (some [])

def regInvalidVersions : String → RegistryResponse :=
  fun _ => .response 200 (some ["not-a-semver"])

def regMixed : String → RegistryResponse := fun url =>
  if url = moduleURL "bad" then .response 404 none
  else if url = providerURL "hashicorp/badp" then .failure "connection refused"
  else .response 200 (some ["1.0.0"])

/-! ### The claims -/

/-- C1: the claim says a registry response whose versions list is non-empty
but contains no parseable semantic version still produces a "not found"
result without failing.  On the code this is false: the selection step of
`getLatestVersion` and `getLatestProviderVersion` indexes entry 0 of the
empty filtered slice, a Go runtime panic (modelled by `none` and
`LookupResult.crash`) — the unguarded edge case the spec itself flags as one
an implementation must handle. -/
theorem allInvalidVersionsCrash :
    getLatestFromVersions ["not-a-semver"] = none ∧
    getLatestVersion regInvalidVersions "org/mod" = .crash ∧
    getLatestProviderVersion regInvalidVersions "aws" = .crash := by
  refine ⟨by decide, by decide, by decide⟩

/-- C2: a module block emits the declaration `(source, version)` exactly when
a source assignment was captured inside the block — the version may be empty
when absent, and a captured source is never the empty string — and emits
nothing when the block has no source assignment. -/
theorem extractorModuleBlockEmission (opener : String) (body rest : List String)
    (hopen : moduleLineMatch opener = true)
    (hbody : ∀ l ∈ body, l ≠ "\x7d") :
    (extractDecls (opener :: (body ++ "\x7d" :: rest))).1 =
      (if lastCapture findSource body "" ≠ "" then
        (lastCapture findSource body "", lastCapture findVersion body "")
          :: (extractDecls rest).1
      else (extractDecls rest).1) ∧
    (∀ l r, findSource l = some r → r ≠ "") := by
  constructor
  · simp only [extractDecls, extractGo, hopen, if_true]
    rw [extractGo_block body rest "" "" hbody]
  · intro l r h
    exact findSource_ne_empty h

/-- Witness for C2 at the spec's example block. -/
theorem extractorModuleBlockEmissionWitness :
    moduleLineMatch "module \"x\" \x7b" = true ∧
    (∀ l ∈ ["  source = \"org/mod/provider\"", "  version = \"1.2.0\""], l ≠ "\x7d") ∧
    (extractDecls ["module \"x\" \x7b", "  source = \"org/mod/provider\"",
        "  version = \"1.2.0\"", "\x7d"]).1 = [("org/mod/provider", "1.2.0")] := by
  refine ⟨by decide, by decide, ?_⟩
  have h := extractorModuleBlockEmission "module \"x\" \x7b"
    ["  source = \"org/mod/provider\"", "  version = \"1.2.0\""] [] (by decide) (by decide)
  exact h.1.trans (by decide)

/-- C3: whenever the decoded list contains at least one valid semantic
version, the resolved latest is the maximum of the valid versions under
semantic-version precedence, invalid strings being discarded; the same
version is returned by `getLatestVersion` for a 200 response carrying that
list. -/
theorem resolvedLatestIsMax (vs : List String)
    (h : ∃ s ∈ vs, (newVersion s).isSome = true) :
    ∃ v, v ∈ validVersions vs ∧ (∀ w ∈ validVersions vs, compareVersion w v ≤ 0) ∧
      getLatestFromVersions vs = some (renderVersion v) ∧
      ∀ (reg : String → RegistryResponse) (src : String),
        reg (moduleURL (stripSubmodulePath src)) = .response 200 (some vs) →
        getLatestVersion reg src = .ok (renderVersion v) := by
  obtain ⟨s, hs, hsome⟩ := h
  obtain ⟨sv, hsv⟩ := Option.isSome_iff_exists.mp hsome
  have hmem : sv ∈ validVersions vs := List.mem_filterMap.mpr ⟨s, hs, hsv⟩
  have hvs : vs.length ≠ 0 := by
    intro hlen
    rw [List.length_eq_zero] at hlen
    subst hlen
    simp at hs
  cases hsort : sortDesc (validVersions vs) with
  | nil =>
    have hnil := sortDesc_eq_nil hsort
    rw [hnil] at hmem
    simp at hmem
  | cons v t =>
    obtain ⟨hvmem, hmax⟩ := sortDesc_head_max _ v t hsort
    have hsel : getLatestFromVersions vs = some (renderVersion v) := by
      unfold getLatestFromVersions
      rw [if_neg hvs, hsort]
    refine ⟨v, hvmem, hmax, hsel, ?_⟩
    intro reg src hreg
    simp only [getLatestVersion]
    rw [hreg]
    simp [hsel]

/-- Witness for C3 at the spec's example response. -/
theorem resolvedLatestIsMaxWitness :
    (∃ s ∈ ["1.0.0", "2.1.0", "1.9.9"], (newVersion s).isSome = true) ∧
    (∃ v, v ∈ validVersions ["1.0.0", "2.1.0", "1.9.9"] ∧
      (∀ w ∈ validVersions ["1.0.0", "2.1.0", "1.9.9"], compareVersion w v ≤ 0) ∧
      getLatestFromVersions ["1.0.0", "2.1.0", "1.9.9"] = some (renderVersion v) ∧
      ∀ (reg : String → RegistryResponse) (src : String),
        reg (moduleURL (stripSubmodulePath src)) =
          .response 200 (some ["1.0.0", "2.1.0", "1.9.9"]) →
        getLatestVersion reg src = .ok (renderVersion v)) ∧
    getLatestFromVersions ["1.0.0", "2.1.0", "1.9.9"] = some "2.1.0" :=
  ⟨⟨"1.0.0", by simp, by decide⟩,
   resolvedLatestIsMax ["1.0.0", "2.1.0", "1.9.9"] ⟨"1.0.0", by simp, by decide⟩,
   by decide⟩

/-- C4: provider-source normalization prepends `hashicorp/` when the
identifier has no slash, keeps an identifier with exactly one slash
unchanged, and fails with a format error exactly when there are two or more
slashes — in which case `getLatestProviderVersion` returns the format error
without consulting the registry at all. -/
theorem providerNormalization (s : String) :
    (countChar '/' s.data = 0 →
      normalizeProviderSource s = some ("hashicorp/" ++ s)) ∧
    (countChar '/' s.data = 1 → normalizeProviderSource s = some s) ∧
    (normalizeProviderSource s = none ↔ 2 ≤ countChar '/' s.data) ∧
    (2 ≤ countChar '/' s.data → ∀ reg : String → RegistryResponse,
      getLatestProviderVersion reg s = .err ("provider format is incorrect: " ++ s)) := by
  have hlen := splitOnChar_length '/' s.data
  have hnone : normalizeProviderSource s = none ↔ 2 ≤ countChar '/' s.data := by
    unfold normalizeProviderSource
    constructor
    · intro h
      by_contra hc
      have hn : countChar '/' s.data = 0 ∨ countChar '/' s.data = 1 := by omega
      rcases hn with hn | hn
      · rw [if_neg (by omega), if_pos (by omega)] at h
        simp at h
      · rw [if_pos (by omega)] at h
        simp at h
    · intro h
      rw [if_neg (by omega), if_neg (by omega)]
  refine ⟨?_, ?_, hnone, ?_⟩
  · intro h
    unfold normalizeProviderSource
    rw [if_neg (by omega), if_pos (by omega)]
  · intro h
    unfold normalizeProviderSource
    rw [if_pos (by omega)]
  · intro h reg
    have hn := hnone.mpr h
    simp only [getLatestProviderVersion]
    rw [hn]

/-- Witness for C4 at the spec's three examples. -/
theorem providerNormalizationWitness :
    normalizeProviderSource "aws" = some ("hashicorp/" ++ "aws") ∧
    normalizeProviderSource "myorg/custom" = some "myorg/custom" ∧
    normalizeProviderSource "a/b/c" = none ∧
    getLatestProviderVersion regEmptyVersions "a/b/c" =
      .err ("provider format is incorrect: " ++ "a/b/c") :=
  ⟨(providerNormalization "aws").1 (by decide),
   (providerNormalization "myorg/custom").2.1 (by decide),
   (providerNormalization "a/b/c").2.2.1.mpr (by decide),
   (providerNormalization "a/b/c").2.2.2 (by decide) regEmptyVersions⟩

/-- C5: the registry lookup of `getLatestVersion` uses only the portion of
the module source before the first `//`; identifiers without `//` are used
whole. -/
theorem moduleLookupStripsSubmodulePath (reg : String → RegistryResponse)
    (a b s : String)
    (ha : hasDblSlash a.data = false) (ha2 : a.data.getLast? ≠ some '/')
    (hs : hasDblSlash s.data = false) :
    getLatestVersion reg (a ++ "//" ++ b) = getLatestVersion reg a ∧
    stripSubmodulePath s = s := by
  have hdata : (a ++ "//" ++ b).data = a.data ++ '/' :: '/' :: b.data := by
    rw [str_data_append, str_data_append]
    simp
  have hstrip1 : stripSubmodulePath (a ++ "//" ++ b) = a := by
    unfold stripSubmodulePath
    rw [hdata, beforeDblSlash_append b.data a.data ha ha2]
  have hstrip2 : stripSubmodulePath a = a := by
    unfold stripSubmodulePath
    rw [beforeDblSlash_no_dbl ha]
  have hstrip3 : stripSubmodulePath s = s := by
    unfold stripSubmodulePath
    rw [beforeDblSlash_no_dbl hs]
  refine ⟨?_, hstrip3⟩
  simp only [getLatestVersion]
  rw [hstrip1, hstrip2]

/-- Witness for C5 at the spec's example identifier. -/
theorem moduleLookupStripsSubmodulePathWitness :
    getLatestVersion regEmptyVersions ("org/mod" ++ "//" ++ "subdir/submodule") =
      getLatestVersion regEmptyVersions "org/mod" ∧
    stripSubmodulePath "org/mod//subdir/submodule" = "org/mod" :=
  ⟨(moduleLookupStripsSubmodulePath regEmptyVersions "org/mod" "subdir/submodule" "x"
      (by decide) (by decide) (by decide)).1,
   by decide⟩

/-- C6: a 200 response whose decoded versions list is empty makes both
lookups return the "Not found" marker with a nil error, not an error. -/
theorem emptyVersionListNotFound (reg : String → RegistryResponse)
    (s p norm : String)
    (hm : reg (moduleURL (stripSubmodulePath s)) = .response 200 (some []))
    (hp : normalizeProviderSource p = some norm)
    (hp2 : reg (providerURL norm) = .response 200 (some [])) :
    getLatestVersion reg s = .ok "Not found" ∧
    getLatestProviderVersion reg p = .ok "Not found" := by
  constructor
  · simp only [getLatestVersion]
    rw [hm]
    rfl
  · simp only [getLatestProviderVersion]
    rw [hp]
    simp only []
    rw [hp2]
    rfl

/-- Witness for C6. -/
theorem emptyVersionListNotFoundWitness :
    getLatestVersion regEmptyVersions "org/mod" = .ok "Not found" ∧
    getLatestProviderVersion regEmptyVersions "aws" = .ok "Not found" :=
  emptyVersionListNotFound regEmptyVersions "org/mod" "aws" "hashicorp/aws"
    (by decide) (by decide) (by decide)

/-- C7: a registry-lookup failure for one module (or provider) entry only
replaces that entry's report with an inline error; every other entry of the
batch is still processed, and the failure itself never aborts the run. -/
theorem lookupFailureIsolated (reg : String → RegistryResponse)
    (pre post : List (String × String)) (src curr msg : String)
    (h : getLatestVersion reg src = .err msg)
    (ppre ppost : List (String × String)) (psrc pcurr pmsg : String)
    (hp : getLatestProviderVersion reg psrc = .err pmsg) :
    reportModules reg (pre ++ (src, curr) :: post) =
      (reportModules reg pre).bind
        (fun x => (reportModules reg post).map
          (fun y => x ++ EntryReport.fetchError src msg :: y)) ∧
    reportProviders reg (ppre ++ (psrc, pcurr) :: ppost) =
      (reportProviders reg ppre).bind
        (fun x => (reportProviders reg ppost).map
          (fun y => x ++ EntryReport.fetchError psrc pmsg :: y)) :=
  ⟨reportModules_err reg src curr msg h pre post,
   reportProviders_err reg psrc pcurr pmsg hp ppre ppost⟩

/-- Witness for C7: a 404 on one module and a transport failure on one
provider, each surrounded by healthy entries. -/
theorem lookupFailureIsolatedWitness :
    reportModules regMixed ([("good", "0.1.0")] ++ ("bad", "1.0.0") :: [("good2", "2.0.0")]) =
      (reportModules regMixed [("good", "0.1.0")]).bind
        (fun x => (reportModules regMixed [("good2", "2.0.0")]).map
          (fun y => x ++ EntryReport.fetchError "bad"
            ("failed to fetch latest version, status code: " ++ natDec 404) :: y)) ∧
    reportProviders regMixed ([("aws", "4.0.0")] ++ ("badp", "1.0.0") :: []) =
      (reportProviders regMixed [("aws", "4.0.0")]).bind
        (fun x => (reportProviders regMixed []).map
          (fun y => x ++ EntryReport.fetchError "badp" "connection refused" :: y)) :=
  lookupFailureIsolated regMixed [("good", "0.1.0")] [("good2", "2.0.0")] "bad" "1.0.0"
    ("failed to fetch latest version, status code: " ++ natDec 404) (by decide)
    [("aws", "4.0.0")] [] "badp" "1.0.0" "connection refused" (by decide)

/-- C8: after a scan run, each map holds, for every source identifier,
exactly the pinned version of the last-seen declaration with that identifier
(last-write-wins), and a source seen once keeps its single version. -/
theorem lastWriteWinsAccumulation (files : List (List String)) (s : String) :
    (walkFiles files).1 s = lastVersionOf s (runModuleDecls files) ∧
    (walkFiles files).2 s = lastVersionOf s (runProviderDecls files) := by
  have h := walkFiles_lookup s files emptyMap emptyMap
  unfold walkFiles
  constructor
  · rw [h.1]
    cases lastVersionOf s (runModuleDecls files) <;> simp [emptyMap]
  · rw [h.2]
    cases lastVersionOf s (runProviderDecls files) <;> simp [emptyMap]

/-- C9: a nil-error return of either lookup is never the empty string — it is
the literal "Not found" marker or the rendering of a valid parsed semantic
version — so the report printer's empty-string "not found" branch can never
execute. -/
theorem okResultNonEmpty (reg : String → RegistryResponse) :
    (∀ s v, getLatestVersion reg s = .ok v →
      v ≠ "" ∧ (v = "Not found" ∨ ∃ s₀ sv, newVersion s₀ = some sv ∧ v = renderVersion sv)) ∧
    (∀ p v, getLatestProviderVersion reg p = .ok v →
      v ≠ "" ∧ (v = "Not found" ∨ ∃ s₀ sv, newVersion s₀ = some sv ∧ v = renderVersion sv)) ∧
    (∀ s c r, reportModuleEntry reg s c = some r →
      ∀ x y, r ≠ EntryReport.notFoundNotice x y) ∧
    (∀ p c r, reportProviderEntry reg p c = some r →
      ∀ x y, r ≠ EntryReport.notFoundNotice x y) := by
  refine ⟨fun s v h => getLatestVersion_ok_props h,
    fun p v h => getLatestProviderVersion_ok_props h, ?_, ?_⟩
  · intro s c r h x y
    simp only [reportModuleEntry] at h
    cases hl : getLatestVersion reg s with
    | crash => rw [hl] at h; simp at h
    | err msg =>
      rw [hl] at h
      simp at h
      subst h
      simp
    | ok w =>
      rw [hl] at h
      have hw := (getLatestVersion_ok_props hl).1
      simp at h
      rw [if_neg hw] at h
      subst h
      simp
  · intro p c r h x y
    simp only [reportProviderEntry] at h
    cases hl : getLatestProviderVersion reg p with
    | crash => rw [hl] at h; simp at h
    | err msg =>
      rw [hl] at h
      simp at h
      subst h
      simp
    | ok w =>
      rw [hl] at h
      have hw := (getLatestProviderVersion_ok_props hl).1
      simp at h
      rw [if_neg hw] at h
      subst h
      simp

/-- Witness for C9 on a healthy registry. -/
theorem okResultNonEmptyWitness :
    ("1.0.0" : String) ≠ "" ∧
    ("1.0.0" = "Not found" ∨
      ∃ s₀ sv, newVersion s₀ = some sv ∧ "1.0.0" = renderVersion sv) :=
  (okResultNonEmpty (fun _ => .response 200 (some ["1.0.0"]))).1 "org/mod" "1.0.0" (by decide)

/-- C10: nothing on the module opener line beyond the block pattern is ever
inspected — extraction proceeds identically for any two matching opener
lines, so source and version assignments written on the opener line itself
are never captured and a one-line module block yields no declaration. -/
theorem openerLineNeverCaptured (o1 o2 : String) (rest : List String)
    (h1 : moduleLineMatch o1 = true) (h2 : moduleLineMatch o2 = true) :
    extractDecls (o1 :: rest) = extractDecls (o2 :: rest) := by
  simp [extractDecls, extractGo, h1, h2]

/-- Witness for C10: a one-line module block with source and version on the
opener line yields no declaration at all. -/
theorem openerLineNeverCapturedWitness :
    extractDecls ["module \"x\" \x7b source = \"org/mod\" version = \"1.0.0\" \x7d"] =
      extractDecls ["module \"y\" \x7b"] ∧
    extractDecls ["module \"y\" \x7b"] = ([], []) :=
  ⟨openerLineNeverCaptured "module \"x\" \x7b source = \"org/mod\" version = \"1.0.0\" \x7d"
      "module \"y\" \x7b" [] (by decide) (by decide),
   by decide⟩

end TFridge
